import Mathlib

/-!
Shallow embedding of `github.com/mcnijman/go-emailaddress` (`emailaddress.go`).

Go strings and byte slices are modelled as `List Char`; every string the
library's regular expressions accept is ASCII, so this is faithful.
The two package-level regular expressions (source lines 28-29) are embedded
as `RegularExpression Char` terms from Mathlib, mirroring the pattern text
fragment by fragment; `(?i)` case-insensitivity is embedded by adding the
uppercase range to every letter class.
-/

open RegularExpression

namespace emailaddress

abbrev RE := RegularExpression Char

/-- A character class `[c₁c₂…]`: alternation of single characters. -/
def cls (l : List Char) : RE := l.foldr (fun c r => RegularExpression.char c + r) 0

/-- The characters with codes `lo..hi`, for embedding ranges like `[a-z]`. -/
def rangeChars (lo hi : Nat) : List Char := (List.range' lo (hi + 1 - lo)).map Char.ofNat

/-- Pattern `r?` -/
def opt (r : RE) : RE := r + 1

/-- Pattern `r+` -/
def plus1 (r : RE) : RE := r * star r

/-- Pattern `r\x7b3\x7d` (exactly three repetitions) -/
def rep3 (r : RE) : RE := r * (r * r)

/-- Pattern `a-z` -/
def lowerAZ : List Char := rangeChars 97 122

/-- Pattern `A-Z` (added to every letter class by the `(?i)` flag) -/
def upperAZ : List Char := rangeChars 65 90

/-- Pattern `0-9` -/
def digits : List Char := rangeChars 48 57

/-- The specials of the dot-atom class: `! # $ % & ' * + / = ? ^ _ ` (backtick),
left brace, `|`, right brace, `~ -`, written by character code. -/
def atomSpecials : List Char :=
  [33, 35, 36, 37, 38, 39, 42, 43, 47, 61, 63, 94, 95, 96, 123, 124, 125, 126, 45].map Char.ofNat

/-- Pattern `[a-z0-9!#$%&'*+/=?^_`\x7b|\x7d~-]` under `(?i)` -/
def atomChar : RE := cls (lowerAZ ++ digits ++ atomSpecials ++ upperAZ)

/-- Pattern `[a-z0-9!…-]+(?:\.[a-z0-9!…-]+)*` — the dot-atom local part -/
def dotAtom : RE := plus1 atomChar * star (RegularExpression.char '.' * plus1 atomChar)

/-- Pattern `[\x01-\x08\x0b\x0c\x0e-\x1f\x21\x23-\x5b\x5d-\x7f]` -/
def qtextChars : List Char :=
  rangeChars 1 8 ++ [11, 12].map Char.ofNat ++ rangeChars 14 31 ++
    [Char.ofNat 33] ++ rangeChars 35 91 ++ rangeChars 93 127

/-- Pattern `[\x01-\x09\x0b\x0c\x0e-\x7f]` (the class after a backslash) -/
def escChars : List Char := rangeChars 1 9 ++ [11, 12].map Char.ofNat ++ rangeChars 14 127

/-- Pattern `\\[\x01-\x09\x0b\x0c\x0e-\x7f]` — an escaped pair -/
def quotedPair : RE := RegularExpression.char '\\' * cls escChars

/-- Pattern `"(?:qtext|quoted-pair)*"` — the quoted-string local part -/
def quotedString : RE :=
  RegularExpression.char '"' * (star (cls qtextChars + quotedPair) * RegularExpression.char '"')

/-- The whole local-part alternation of both patterns. -/
def localPart : RE := dotAtom + quotedString

/-- Pattern `[a-z0-9]` under `(?i)` -/
def alnum : RE := cls (lowerAZ ++ digits ++ upperAZ)

/-- Pattern `[a-z0-9-]` under `(?i)` -/
def alnumHyphen : RE := cls (lowerAZ ++ digits ++ ['-'] ++ upperAZ)

/-- Pattern `[a-z0-9](?:[a-z0-9-]*[a-z0-9])?` — one DNS label -/
def label : RE := alnum * opt (star alnumHyphen * alnum)

/-- Pattern `(?:label\.)+label` — the dotted-domain branch -/
def dottedDomain : RE := plus1 (label * RegularExpression.char '.') * label

/-- Pattern `[0-9]` -/
def d09 : RE := cls digits

/-- Pattern `(2(5[0-5]|[0-4][0-9])|1[0-9][0-9]|[1-9]?[0-9])` — one IPv4 octet -/
def ipOctet : RE :=
  RegularExpression.char '2' *
      (RegularExpression.char '5' * cls (rangeChars 48 53) + cls (rangeChars 48 52) * d09) +
    (RegularExpression.char '1' * (d09 * d09) + opt (cls (rangeChars 49 57)) * d09)

/-- Pattern `[\x01-\x08\x0b\x0c\x0e-\x1f\x21-\x5a\x53-\x7f]` (overlapping ranges kept as written) -/
def dtextChars : List Char :=
  rangeChars 1 8 ++ [11, 12].map Char.ofNat ++ rangeChars 14 31 ++
    rangeChars 33 90 ++ rangeChars 83 127

/-- the last alternative inside the brackets:
`(ipOctet|[a-z0-9-]*[a-z0-9]:(?:dtext|quoted-pair)+)` -/
def bracketTail : RE :=
  ipOctet +
    star alnumHyphen * alnum *
      (RegularExpression.char ':' * plus1 (cls dtextChars + quotedPair))

/-- Pattern `\[(?:ipOctet\.)\x7b3\x7dbracketTail\]` — the bracketed address literal -/
def addressLiteral : RE :=
  RegularExpression.char '[' *
    (rep3 (ipOctet * RegularExpression.char '.') * (bracketTail * RegularExpression.char ']'))

/-- One repetition of the domain group of both patterns. -/
def domainAtom : RE := dottedDomain + addressLiteral

/-- Source line 28: `validEmailRegexp = ^(?i)localPart@(?:domainAtom)*$`.
Note the `*` on the domain group: the pattern text ends in `\])*$`, so the
whole domain alternation is starred (zero or more repetitions). -/
def validEmailRegexp : RE := localPart * (RegularExpression.char '@' * star domainAtom)

/-- Source line 29: `findEmailRegexp` — the same grammar, unanchored and with
exactly one domain group (its text ends in `\])`, no star). -/
def findEmailRegexp : RE := localPart * (RegularExpression.char '@' * domainAtom)

/-- The outcome of a Go function returning `(T, error)`: a value, a non-nil
error, or a runtime panic (for out-of-range slice or index accesses). -/
inductive GoResult (ε α : Type) where
  | ok : α → GoResult ε α
  | err : ε → GoResult ε α
  | panics : GoResult ε α
deriving DecidableEq

/-- Embeds `type EmailAddress struct` (source lines 33-36). -/
structure EmailAddress where
  LocalPart : List Char
  Domain : List Char
deriving DecidableEq

/-- Embeds `func (e EmailAddress) String() string` (source lines 38-40):
`fmt.Sprintf("%s@%s", e.LocalPart, e.Domain)`, an unconditional
concatenation whatever the parts are. -/
def EmailAddress.render (e : EmailAddress) : List Char :=
  e.LocalPart ++ '@' :: e.Domain

/-- Embeds `strings.LastIndexByte`, as the index of the last occurrence (`none` for
Go's `-1` when the byte does not occur). -/
def lastIdx : List Char → Char → Option Nat
  | [], _ => none
  | x :: xs, c =>
    match lastIdx xs c with
    | some n => some (n + 1)
    | none => if x = c then some 0 else none

/-- Embeds `func Parse(email string) (*EmailAddress, error)` (source lines 70-81).
When the anchored pattern does not match, the error message is
`"format is incorrect for %s"`.  When it matches, the string is split at the
last `'@'`: `email[:i]` and `email[i+1:]`.  If no `'@'` existed, `i` would be
`-1` and `email[:i]` would panic; a match always contains `'@'`, so that
branch is unreachable. -/
def Parse (email : List Char) : GoResult (List Char) EmailAddress :=
  if validEmailRegexp.rmatch email = true then
    match lastIdx email '@' with
    | some i => .ok ⟨email.take i, email.drop (i + 1)⟩
    | none => .panics
  else .err ("format is incorrect for ".toList ++ email)

/-- The length of the preferred match of `r` at the start of `l`, if any.
Go's regexp engine prefers greedy quantifiers, and in both of this package's
patterns the alternatives are distinguished by their first character, so the
preferred match at a position is the longest one; we compute it directly. -/
def longestMatchLen (r : RE) (l : List Char) : Option Nat :=
  (List.range (l.length + 1)).foldl
    (fun acc n => if r.rmatch (l.take n) = true then some n else acc) none

/-- Embeds `findEmailRegexp.FindAll(haystack, -1)`: successive non-overlapping
matches, scanning left to right and continuing after each match.  Structural
fuel (`findAll` passes the list length) stands in for well-founded recursion:
every step consumes at least one character. -/
def findAllAux (fuel : Nat) (l : List Char) : List (List Char) :=
  match fuel with
  | 0 => []
  | fuel + 1 =>
    match l with
    | [] => []
    | x :: xs =>
      match longestMatchLen findEmailRegexp (x :: xs) with
      | some (n + 1) => (x :: xs).take (n + 1) :: findAllAux fuel (xs.drop n)
      | _ => findAllAux fuel xs

/-- All matches of the search pattern in `haystack`, leftmost first. -/
def findAll (haystack : List Char) : List (List Char) :=
  findAllAux haystack.length haystack

/-- The loop body of `Find` (source lines 55-64): parse each match, on
success optionally gate on host validation, and append survivors in order.
`hostOK e` stands for `e.ValidateHost() == nil`, whose network calls are
outside this embedding. -/
def findLoop (hostOK : EmailAddress → Bool) (validateHost : Bool) :
    List (List Char) → List EmailAddress
  | [] => []
  | r :: rs =>
    match Parse r with
    | .ok e =>
      if validateHost then
        if hostOK e then e :: findLoop hostOK validateHost rs
        else findLoop hostOK validateHost rs
      else e :: findLoop hostOK validateHost rs
    | _ => findLoop hostOK validateHost rs

/-- Embeds `func Find(haystack []byte, validateHost bool) []*EmailAddress`
(source lines 53-66), with the network behind `hostOK`. -/
def Find (haystack : List Char) (validateHost : Bool)
    (hostOK : EmailAddress → Bool) : List EmailAddress :=
  findLoop hostOK validateHost (findAll haystack)

/-- A DNS mail-exchange record, as returned by `net.LookupMX`. -/
structure MX where
  Host : List Char
  Pref : Nat

/-- An IP address as returned by `net.LookupIP`, abstracted by the string its
`String()` method renders (the `net` package is outside this repository). -/
structure IPAddr where
  str : List Char

/-- Embeds `func lookupHost(domain string) (string, error)` (source lines 86-94).
The two DNS queries are inputs: `mxRes` is what `net.LookupMX(domain)`
returned, `ipRes` what `net.LookupIP(domain)` returned.  The source indexes
`mx[0]` / `ips[0]` immediately after checking `err == nil`, with no emptiness
check, so an empty error-free slice is an index-out-of-range panic. -/
def lookupHost (domain : List Char) (mxRes : Except (List Char) (List MX))
    (ipRes : Except (List Char) (List IPAddr)) : GoResult (List Char) (List Char) :=
  match mxRes with
  | .ok mx =>
    match mx with
    | [] => .panics
    | m :: _ => .ok m.Host
  | .error _ =>
    match ipRes with
    | .ok ips =>
      match ips with
      | [] => .panics
      | ip :: _ => .ok ip.str
    | .error _ => .err ("failed finding MX and A records for domain ".toList ++ domain)

/-- The SMTP side of `tryHost`, as oracles: each field gives the outcome
(`none` = nil error) of the corresponding `smtp.Client` call on its string
argument.  `reset` and `quit` carry the outcomes of `client.Reset()` and
`client.Quit()`, whose return values the source discards. -/
structure SMTPConn where
  dial : List Char → Option (List Char)
  hello : List Char → Option (List Char)
  mail : List Char → Option (List Char)
  rcpt : List Char → Option (List Char)
  reset : Option (List Char)
  quit : Option (List Char)

/-- One observable step of the probe, for tracing which calls happen. -/
inductive SMTPStep where
  | dial | hello | mail | rcpt | reset | quit | close
deriving DecidableEq

/-- Embeds `func tryHost(host string, e EmailAddress) error` (source lines 97-114):
dial `host:25`, then `Hello(e.Domain)`, `Mail("hello@" + e.Domain)`,
`Rcpt(e.String())` in nested `err == nil` guards; on full success `Reset` and
`Quit` run with their errors discarded; `defer client.Close()` closes the
connection on every path after a successful dial.  Returns the resulting
error (`none` = success) together with the trace of calls made. -/
def tryHost (c : SMTPConn) (host : List Char) (e : EmailAddress) :
    Option (List Char) × List SMTPStep :=
  match c.dial (host ++ ":25".toList) with
  | some err => (some err, [.dial])
  | none =>
    match c.hello e.Domain with
    | some err => (some err, [.dial, .hello, .close])
    | none =>
      match c.mail ("hello@".toList ++ e.Domain) with
      | some err => (some err, [.dial, .hello, .mail, .close])
      | none =>
        match c.rcpt e.render with
        | some err => (some err, [.dial, .hello, .mail, .rcpt, .close])
        | none => (none, [.dial, .hello, .mail, .rcpt, .reset, .quit, .close])

/-! ### Properties of `lastIdx` -/

theorem lastIdx_eq_none_iff (l : List Char) (c : Char) :
    lastIdx l c = none ↔ c ∉ l := by
  induction l with
  | nil => simp [lastIdx]
  | cons x xs ih =>
    simp only [lastIdx]
    cases hm : lastIdx xs c with
    | some n =>
      have hxs : c ∈ xs := by
        by_contra hc
        rw [ih.mpr hc] at hm
        simp at hm
      simp only [reduceCtorEq, false_iff]
      intro hno
      exact hno (List.mem_cons_of_mem x hxs)
    | none =>
      by_cases hx : x = c
      · simp [hx, List.mem_cons]
      · simp only [hx, if_false, true_iff, List.mem_cons, not_or]
        exact ⟨fun h => hx h.symm, ih.mp hm⟩

theorem lastIdx_isSome_of_mem {l : List Char} {c : Char} (h : c ∈ l) :
    ∃ n, lastIdx l c = some n := by
  cases hm : lastIdx l c with
  | some n => exact ⟨n, rfl⟩
  | none => exact absurd h ((lastIdx_eq_none_iff l c).mp hm)

theorem lastIdx_split {l : List Char} {c : Char} {n : Nat}
    (h : lastIdx l c = some n) : l.take n ++ c :: l.drop (n + 1) = l := by
  induction l generalizing n with
  | nil => simp [lastIdx] at h
  | cons x xs ih =>
    simp only [lastIdx] at h
    cases hm : lastIdx xs c with
    | some m =>
      rw [hm] at h
      obtain rfl : m + 1 = n := by simpa using h
      simpa [List.take_succ_cons, List.drop_succ_cons] using ih hm
    | none =>
      rw [hm] at h
      by_cases hx : x = c
      · simp only [hx, if_true, Option.some.injEq] at h
        subst h
        simp [hx]
      · simp [hx] at h

theorem lastIdx_not_mem_drop {l : List Char} {c : Char} {n : Nat}
    (h : lastIdx l c = some n) : c ∉ l.drop (n + 1) := by
  induction l generalizing n with
  | nil => simp [lastIdx] at h
  | cons x xs ih =>
    simp only [lastIdx] at h
    cases hm : lastIdx xs c with
    | some m =>
      rw [hm] at h
      obtain rfl : m + 1 = n := by simpa using h
      simpa [List.drop_succ_cons] using ih hm
    | none =>
      rw [hm] at h
      by_cases hx : x = c
      · simp only [hx, if_true, Option.some.injEq] at h
        subst h
        simpa [List.drop_succ_cons] using (lastIdx_eq_none_iff xs c).mp hm
      · simp [hx] at h

/-! ### Shape of strings accepted by the anchored pattern -/

/-- Any string the anchored pattern accepts splits as a local part, a literal
`'@'`, and zero or more repetitions of the domain group. -/
theorem rmatch_valid_decomp {s : List Char}
    (h : validEmailRegexp.rmatch s = true) :
    ∃ l d, s = l ++ '@' :: d ∧ localPart.rmatch l = true ∧
      (star domainAtom).rmatch d = true := by
  obtain ⟨t, u, hs, hP, hQ⟩ := (mul_rmatch_iff _ _ _).mp h
  obtain ⟨v, w, hu, hv, hw⟩ := (mul_rmatch_iff _ _ _).mp hQ
  have hv' : v = ['@'] := (char_rmatch_iff _ _).mp hv
  subst hv' hu hs
  exact ⟨t, w, rfl, hP, hw⟩

theorem at_mem_of_rmatch {s : List Char}
    (h : validEmailRegexp.rmatch s = true) : '@' ∈ s := by
  obtain ⟨l, d, hs, -, -⟩ := rmatch_valid_decomp h
  subst hs
  simp

/-! ### Properties of `Parse` -/

theorem Parse_ok_of_rmatch {s : List Char}
    (h : validEmailRegexp.rmatch s = true) :
    ∃ i, lastIdx s '@' = some i ∧
      Parse s = .ok ⟨s.take i, s.drop (i + 1)⟩ := by
  obtain ⟨i, hi⟩ := lastIdx_isSome_of_mem (at_mem_of_rmatch h)
  exact ⟨i, hi, by simp [Parse, h, hi]⟩

theorem Parse_ok_inv {s : List Char} {e : EmailAddress}
    (h : Parse s = .ok e) :
    validEmailRegexp.rmatch s = true ∧
      ∃ i, lastIdx s '@' = some i ∧
        e.LocalPart = s.take i ∧ e.Domain = s.drop (i + 1) := by
  by_cases hm : validEmailRegexp.rmatch s = true
  · refine ⟨hm, ?_⟩
    cases hi : lastIdx s '@' with
    | some i =>
      simp only [Parse, hm, if_true, hi] at h
      obtain rfl : EmailAddress.mk (s.take i) (s.drop (i + 1)) = e := by
        simpa using h
      exact ⟨i, rfl, rfl, rfl⟩
    | none => simp [Parse, hm, hi] at h
  · simp [Parse, hm] at h

theorem Parse_ok_render {s : List Char} {e : EmailAddress}
    (h : Parse s = .ok e) : e.render = s := by
  obtain ⟨-, i, hi, hl, hd⟩ := Parse_ok_inv h
  rw [EmailAddress.render, hl, hd]
  exact lastIdx_split hi

theorem Parse_ok_domain_no_at {s : List Char} {e : EmailAddress}
    (h : Parse s = .ok e) : '@' ∉ e.Domain := by
  obtain ⟨-, i, hi, -, hd⟩ := Parse_ok_inv h
  rw [hd]
  exact lastIdx_not_mem_drop hi

/-! ### Properties of the extractor -/

theorem longestMatchLen_rmatch {r : RE} {l : List Char} {n : Nat}
    (h : longestMatchLen r l = some n) : r.rmatch (l.take n) = true := by
  have aux : ∀ (L : List Nat) (acc : Option Nat),
      (∀ m, acc = some m → r.rmatch (l.take m) = true) →
      L.foldl (fun acc k => if r.rmatch (l.take k) = true then some k else acc)
          acc = some n →
      r.rmatch (l.take n) = true := by
    intro L
    induction L with
    | nil => intro acc hacc hf; exact hacc n hf
    | cons k L ih =>
      intro acc hacc hf
      refine ih _ ?_ hf
      intro m hm
      by_cases hk : r.rmatch (l.take k) = true
      · simp only [hk, if_true, Option.some.injEq] at hm
        subst hm; exact hk
      · simp only [hk, if_false] at hm
        exact hacc m hm
  exact aux _ none (by intro m hm; cases hm) h

theorem mem_findAllAux_rmatch {fuel : Nat} {l r : List Char}
    (h : r ∈ findAllAux fuel l) : findEmailRegexp.rmatch r = true := by
  induction fuel generalizing l with
  | zero => simp [findAllAux] at h
  | succ fuel ih =>
    cases l with
    | nil => simp [findAllAux] at h
    | cons x xs =>
      simp only [findAllAux] at h
      cases hm : longestMatchLen findEmailRegexp (x :: xs) with
      | some k =>
        cases k with
        | zero => rw [hm] at h; exact ih h
        | succ n =>
          rw [hm] at h
          rcases List.mem_cons.mp h with rfl | hr
          · exact longestMatchLen_rmatch hm
          · exact ih hr
      | none => rw [hm] at h; exact ih h

theorem mem_findLoop_parsed {hostOK : EmailAddress → Bool} {v : Bool}
    {rs : List (List Char)} {e : EmailAddress}
    (h : e ∈ findLoop hostOK v rs) : ∃ r ∈ rs, Parse r = .ok e := by
  induction rs with
  | nil => simp [findLoop] at h
  | cons r rs ih =>
    simp only [findLoop] at h
    cases hp : Parse r with
    | ok e' =>
      rw [hp] at h
      have hcons : e ∈ e' :: findLoop hostOK v rs := by
        cases v with
        | true =>
          by_cases hk : hostOK e' = true
          · simpa [hk] using h
          · simp only [hk] at h
            simp at h
            exact List.mem_cons_of_mem _ h
        | false => simpa using h
      rcases List.mem_cons.mp hcons with rfl | hr
      · exact ⟨r, List.mem_cons_self r rs, hp⟩
      · obtain ⟨r', hr', he'⟩ := ih hr
        exact ⟨r', List.mem_cons_of_mem r hr', he'⟩
    | err msg =>
      rw [hp] at h
      obtain ⟨r', hr', he'⟩ := ih h
      exact ⟨r', List.mem_cons_of_mem r hr', he'⟩
    | panics =>
      rw [hp] at h
      obtain ⟨r', hr', he'⟩ := ih h
      exact ⟨r', List.mem_cons_of_mem r hr', he'⟩

theorem findLoop_eq_filterMap (hostOK : EmailAddress → Bool) (v : Bool)
    (rs : List (List Char)) :
    findLoop hostOK v rs = rs.filterMap (fun r =>
      match Parse r with
      | .ok e => if (!v || hostOK e) = true then some e else none
      | _ => none) := by
  induction rs with
  | nil => simp [findLoop]
  | cons r rs ih =>
    simp only [findLoop, List.filterMap_cons]
    cases hp : Parse r with
    | ok e =>
      cases v with
      | false => simp [ih]
      | true =>
        by_cases hk : hostOK e = true
        · simp [hk, ih]
        · simp only [Bool.not_true, Bool.false_or, hk, if_false, if_true,
            Bool.true_eq_false] at *
          simpa using ih
    | err msg => simpa using ih
    | panics => simpa using ih

/-! ### The claims -/

/-- Claim C1: the claim says `String` returns the empty string when either
part is empty.  The source method (lines 38-40) concatenates
unconditionally, so an address with an empty part renders to `"foo@"`,
`"@bar.com"` or `"@"` — never to the empty string the claim (and the
package's own `TestEmailAddress_String` cases 2-4) requires.  This theorem
evaluates the embedded method at those failing inputs. -/
theorem render_concatenates_even_when_empty :
    EmailAddress.render ⟨"foo".toList, []⟩ = "foo@".toList ∧
      EmailAddress.render ⟨[], "bar.com".toList⟩ = "@bar.com".toList ∧
      EmailAddress.render ⟨[], []⟩ = ['@'] := by
  decide

/-- Claim C2: every string the anchored pattern accepts parses successfully,
and — whenever the resulting local part and domain are both non-empty —
rendering the parsed address yields exactly the input again, including
inputs whose local part swallowed earlier `'@'` characters (the split is at
the last `'@'`). -/
theorem parse_render_roundTrip (s : List Char)
    (h : validEmailRegexp.rmatch s = true) :
    ∃ e, Parse s = .ok e ∧
      (e.LocalPart ≠ [] → e.Domain ≠ [] → e.render = s) := by
  obtain ⟨i, -, hp⟩ := Parse_ok_of_rmatch h
  exact ⟨_, hp, fun _ _ => Parse_ok_render hp⟩

theorem parse_render_roundTrip_witness :
    ∃ e, Parse "a@b.cd".toList = .ok e ∧
      (e.LocalPart ≠ [] → e.Domain ≠ [] → e.render = "a@b.cd".toList) :=
  parse_render_roundTrip _ (by decide)

/-- Claim C3: `Parse` fails — with the malformed-address error carrying the
offending string — exactly on the strings the anchored pattern rejects, and
returns an address on every string it accepts. -/
theorem parse_err_iff_rejected (s : List Char) :
    (validEmailRegexp.rmatch s = false →
      Parse s = .err ("format is incorrect for ".toList ++ s)) ∧
    (validEmailRegexp.rmatch s = true → ∃ e, Parse s = .ok e) ∧
    (∀ msg, Parse s = .err msg →
      validEmailRegexp.rmatch s = false ∧
        msg = "format is incorrect for ".toList ++ s) := by
  refine ⟨?_, ?_, ?_⟩
  · intro h
    simp [Parse, h]
  · intro h
    obtain ⟨i, -, hp⟩ := Parse_ok_of_rmatch h
    exact ⟨_, hp⟩
  · intro msg h
    by_cases hm : validEmailRegexp.rmatch s = true
    · obtain ⟨i, -, hp⟩ := Parse_ok_of_rmatch hm
      rw [hp] at h
      exact absurd h (by simp)
    · have hm' : validEmailRegexp.rmatch s = false := by
        cases hb : validEmailRegexp.rmatch s
        · rfl
        · exact absurd hb hm
      refine ⟨hm', ?_⟩
      simp only [Parse, hm', Bool.false_eq_true, if_false, GoResult.err.injEq] at h
      exact h.symm

theorem parse_err_iff_rejected_witness :
    ∃ e, Parse "e@d.co".toList = .ok e :=
  (parse_err_iff_rejected _).2.1 (by decide)

/-- Claim C4: a successful parse splits the input exactly at its last `'@'`:
the input is literally the stored local part, one `'@'`, then the stored
domain, and the domain contains no further `'@'` — so both parts are exact,
unnormalized substrings of the input. -/
theorem parse_splits_at_last_at (s : List Char) (e : EmailAddress)
    (h : Parse s = .ok e) :
    s = e.LocalPart ++ '@' :: e.Domain ∧ '@' ∉ e.Domain :=
  ⟨(Parse_ok_render h).symm, Parse_ok_domain_no_at h⟩

theorem parse_splits_at_last_at_witness :
    Parse "a@[1.2.3.4]".toList = .ok ⟨"a".toList, "[1.2.3.4]".toList⟩ ∧
      ("a@[1.2.3.4]".toList =
          "a".toList ++ '@' :: "[1.2.3.4]".toList ∧
        '@' ∉ "[1.2.3.4]".toList) :=
  ⟨by decide,
    parse_splits_at_last_at ("a@[1.2.3.4]".toList)
      ⟨"a".toList, "[1.2.3.4]".toList⟩ (by decide)⟩

/-- Claim C5: the claim says the part after the `'@'` is never empty.  In
the source the anchored pattern's whole domain group is starred (line 28
ends in `\])*$`, unlike the search pattern on line 29 and unlike the RFC 5322
pattern the comment cites, which end in `\])`), so zero repetitions are
accepted: `"email@"` passes validation and parses to an address whose
domain is the empty string. -/
theorem strict_accepts_empty_domain :
    validEmailRegexp.rmatch "email@".toList = true ∧
      Parse "email@".toList = .ok ⟨"email".toList, []⟩ := by
  exact ⟨by decide, by decide⟩

/-- Claim C6: for any haystack and either flag value, every address `Find`
returns renders to a string that the anchored (strict) pattern itself
accepts — the extractor produces no false positives. -/
theorem find_no_false_positive (h : List Char) (v : Bool)
    (hostOK : EmailAddress → Bool) (e : EmailAddress)
    (he : e ∈ Find h v hostOK) :
    validEmailRegexp.rmatch e.render = true := by
  have he' : e ∈ findLoop hostOK v (findAll h) := he
  obtain ⟨r, -, hp⟩ := mem_findLoop_parsed he'
  rw [Parse_ok_render hp]
  exact (Parse_ok_inv hp).1

theorem find_no_false_positive_witness :
    validEmailRegexp.rmatch
        (EmailAddress.render ⟨"a".toList, "b.cd".toList⟩) = true :=
  find_no_false_positive "a@b.cd".toList false (fun _ => true) _ (by decide)

/-- Claim C7: `Find` equals the ordered `filterMap` over the left-to-right,
non-overlapping matches of the search pattern: each candidate that parses
(and, when the flag is set, passes host validation) survives in source
order, duplicates included; failing candidates are dropped silently; the
result is a plain — possibly empty — list, never an error.  Moreover every
candidate considered is a genuine match of the search pattern. -/
theorem find_eq_filtered_matches (h : List Char) (v : Bool)
    (hostOK : EmailAddress → Bool) :
    Find h v hostOK = (findAll h).filterMap (fun r =>
        match Parse r with
        | .ok e => if (!v || hostOK e) = true then some e else none
        | _ => none) ∧
      (findAll h).all (fun r => findEmailRegexp.rmatch r) = true := by
  refine ⟨findLoop_eq_filterMap hostOK v (findAll h), ?_⟩
  rw [List.all_eq_true]
  intro r hr
  exact mem_findAllAux_rmatch hr

/-- Claim C8: `lookupHost` returns the first MX record's host when the MX
query succeeds; otherwise the string form of the first looked-up IP address
when that query succeeds; and when both queries fail, an error whose
message names the domain. -/
theorem lookupHost_resolution (domain : List Char)
    (mxRes : Except (List Char) (List MX))
    (ipRes : Except (List Char) (List IPAddr)) :
    (∀ m rest, mxRes = Except.ok (m :: rest) →
      lookupHost domain mxRes ipRes = .ok m.Host) ∧
    (∀ e ip rest, mxRes = Except.error e → ipRes = Except.ok (ip :: rest) →
      lookupHost domain mxRes ipRes = .ok ip.str) ∧
    (∀ e1 e2, mxRes = Except.error e1 → ipRes = Except.error e2 →
      lookupHost domain mxRes ipRes =
        .err ("failed finding MX and A records for domain ".toList ++ domain)) := by
  refine ⟨?_, ?_, ?_⟩ <;> intros <;> subst_vars <;> rfl

theorem lookupHost_resolution_witness :
    lookupHost "d.co".toList (Except.ok [⟨"mx.d.co".toList, 10⟩])
        (Except.error "x".toList) = .ok "mx.d.co".toList :=
  (lookupHost_resolution _ _ _).1 _ _ rfl

/-- Claim C9: the probe succeeds exactly when dialing, the greeting, the
mail-from and the recipient commands all succeed; whichever of them fails
first becomes the returned error and no later protocol step runs; the reset
and quit outcomes never influence the result. -/
theorem tryHost_first_error (c : SMTPConn) (host : List Char)
    (e : EmailAddress) :
    ((tryHost c host e).1 = none ↔
      c.dial (host ++ ":25".toList) = none ∧ c.hello e.Domain = none ∧
        c.mail ("hello@".toList ++ e.Domain) = none ∧
        c.rcpt e.render = none) ∧
    (∀ err, c.dial (host ++ ":25".toList) = some err →
      tryHost c host e = (some err, [.dial])) ∧
    (∀ err, c.dial (host ++ ":25".toList) = none →
      c.hello e.Domain = some err →
      tryHost c host e = (some err, [.dial, .hello, .close])) ∧
    (∀ err, c.dial (host ++ ":25".toList) = none → c.hello e.Domain = none →
      c.mail ("hello@".toList ++ e.Domain) = some err →
      tryHost c host e = (some err, [.dial, .hello, .mail, .close])) ∧
    (∀ err, c.dial (host ++ ":25".toList) = none → c.hello e.Domain = none →
      c.mail ("hello@".toList ++ e.Domain) = none →
      c.rcpt e.render = some err →
      tryHost c host e = (some err, [.dial, .hello, .mail, .rcpt, .close])) ∧
    (∀ r q,
      tryHost ⟨c.dial, c.hello, c.mail, c.rcpt, r, q⟩ host e =
        tryHost c host e) := by
  refine ⟨?_, ?_, ?_, ?_, ?_, ?_⟩
  · cases hd : c.dial (host ++ ":25".toList) with
    | some err =>
      unfold tryHost
      rw [hd]
      simp
    | none =>
      cases hh : c.hello e.Domain with
      | some err =>
        unfold tryHost
        rw [hd, hh]
        simp
      | none =>
        cases hm : c.mail ("hello@".toList ++ e.Domain) with
        | some err =>
          unfold tryHost
          rw [hd, hh, hm]
          simp
        | none =>
          cases hr : c.rcpt e.render with
          | some err =>
            unfold tryHost
            rw [hd, hh, hm, hr]
            simp
          | none =>
            unfold tryHost
            rw [hd, hh, hm, hr]
            simp
  · intro err hd
    unfold tryHost
    rw [hd]
  · intro err hd hh
    unfold tryHost
    rw [hd, hh]
  · intro err hd hh hm
    unfold tryHost
    rw [hd, hh, hm]
  · intro err hd hh hm hr
    unfold tryHost
    rw [hd, hh, hm, hr]
  · intro r q
    rfl

theorem tryHost_first_error_witness :
    tryHost
        ⟨fun _ => none, fun _ => some "550".toList, fun _ => none,
          fun _ => none, none, none⟩
        "h.co".toList ⟨"a".toList, "b.cd".toList⟩ =
      (some "550".toList, [.dial, .hello, .close]) :=
  (tryHost_first_error _ _ _).2.2.1 _ rfl rfl

/-- Claim C10: `lookupHost` takes the first element of an error-free record
list with no emptiness check — an empty error-free result is an
index-out-of-range panic — and the accesses are in bounds on every outcome
precisely under the precondition that an error-free lookup returns at least
one record. -/
theorem lookupHost_unchecked_first_access (domain : List Char) :
    (∀ ipRes, lookupHost domain (Except.ok []) ipRes = .panics) ∧
    (∀ e, lookupHost domain (Except.error e) (Except.ok []) = .panics) ∧
    (∀ mxRes ipRes, (∀ mx, mxRes = Except.ok mx → mx ≠ []) →
      (∀ ips, ipRes = Except.ok ips → ips ≠ []) →
      lookupHost domain mxRes ipRes ≠ .panics) := by
  refine ⟨fun _ => rfl, fun _ => rfl, ?_⟩
  intro mxRes ipRes hmx hip
  cases mxRes with
  | ok mx =>
    cases mx with
    | nil => exact absurd rfl (hmx [] rfl)
    | cons m rest => simp [lookupHost]
  | error e =>
    cases ipRes with
    | ok ips =>
      cases ips with
      | nil => exact absurd rfl (hip [] rfl)
      | cons ip rest => simp [lookupHost]
    | error e2 => simp [lookupHost]

theorem lookupHost_unchecked_first_access_witness :
    lookupHost "d.co".toList (Except.ok [⟨"m".toList, 1⟩])
        (Except.error "x".toList) ≠ .panics :=
  (lookupHost_unchecked_first_access _).2.2 _ _
    (fun mx hmx => by cases hmx; simp)
    (fun ips h => Except.noConfusion h)

end emailaddress
